import Mathlib

/-!
# Verification of the live_monitor catalog reconciler and liveness prober

Shallow embedding of the repository:
* `src/main.py`  — `DataProcessor`, `DataUpdater.update_data` / `fetch_webpage`,
  `ChannelChecker`;
* `src/check.py` — `parse_rtmp_url`, `rtmp_handshake`, `_check_rtmp`,
  `_check_other`, `check_one`, `main` (dedup + probe scheduling);
* `src/fetch.py` — `is_expired` staleness gate (same shape as the gate inside
  `DataUpdater.fetch_webpage`) and `update_source`, the from-scratch rebuild
  of one Source node.

Python dicts are modelled as association lists with unique keys in insertion
order (`pyDictOf` reproduces the last-value-wins / first-position-wins
behaviour of a dict comprehension).  JSON scalar field values are modelled by
`FieldVal`; network and subprocess effects are modelled by oracles packaged in
a `World` structure, so every probe primitive is a pure function of the world.
-/

namespace LiveMonitor

/-- A scalar JSON field value as manipulated by `update_data`
(the code only ever reads strings and writes the integer result default). -/
inductive FieldVal where
  | str : String → FieldVal
  | int : Int → FieldVal
deriving DecidableEq, Repr

/-- One catalog entry (a platform or a channel) as a Python dict:
the identity key `address` plus the remaining fields in insertion order.
A payload entry that lacks the address key makes the source code raise
inside `update_data`'s `try:`; such payloads are modelled as
`Payload.malformed` below, so `Item` always carries an address. -/
structure Item where
  address : String
  fields : List (String × FieldVal)
deriving DecidableEq, Repr

/-- An association list standing for a Python dict keyed by address. -/
abbrev Dict := List (String × Item)

/-- Dict lookup: first (and, for dicts built by `pyDictOf`, only) match. -/
def lookupD : Dict → String → Option Item
  | [], _ => none
  | (k1, v) :: rest, k => if k1 = k then some v else lookupD rest k

/-- Python dict assignment `d[k] = v`: overwrite in place if the key exists
(keeping its position), otherwise append. -/
def pyInsert (d : Dict) (k : String) (v : Item) : Dict :=
  if (lookupD d k).isSome then
    d.map (fun kv => if kv.1 = k then (k, v) else kv)
  else d ++ [(k, v)]

/-- `{item[address]: item for item in l}` — a dict comprehension:
last value wins, first insertion position wins. -/
def pyDictOf (l : List Item) : Dict :=
  l.foldl (fun d it => pyInsert d it.address it) []

/-- First item of `l` carrying address `k` (how the `updated` loop of
`update_data` locates the entry to mutate). -/
def findByAddr (l : List Item) (k : String) : Option Item :=
  l.find? (fun it => decide (it.address = k))

/-- `added = {k: v for k, v in new_dict.items() if k not in old_dict}`
(src/main.py line 153). -/
def addedOf (oldD newD : Dict) : Dict :=
  newD.filter (fun kv => (lookupD oldD kv.1).isNone)

/-- `removed = {k: v for k, v in old_dict.items() if k not in new_dict}`
(src/main.py line 154). -/
def removedOf (oldD newD : Dict) : Dict :=
  oldD.filter (fun kv => (lookupD newD kv.1).isNone)

/-- `updated = {k: … for k, v in new_dict.items() if k in old_dict and v != old_dict[k]}`
(src/main.py lines 155-159); we record the new value, the old one is recoverable. -/
def updatedOf (oldD newD : Dict) : Dict :=
  newD.filter (fun kv =>
    match lookupD oldD kv.1 with
    | some ov => decide (kv.2 ≠ ov)
    | none => false)

/-- `old.update(new)` on the non-address fields: existing keys keep their
position and receive the new value, keys only in `new` are appended in
`new`'s order. -/
def dictUpdate (old new : List (String × FieldVal)) : List (String × FieldVal) :=
  old.map (fun kv =>
    match new.lookup kv.1 with
    | some v => (kv.1, v)
    | none => kv)
  ++ new.filter (fun kv => (old.lookup kv.1).isNone)

/-- `item.update(changes['new'])` (src/main.py line 167): the new dict always
contains the address key (it was the key of `new_dict`), so the address is
overwritten with the new item's address. -/
def Item.applyUpdate (old new : Item) : Item :=
  { address := new.address, fields := dictUpdate old.fields new.fields }

/-- Python `list.remove(x)`: drop the first element structurally equal to `x`
(at the call site in `update_data` the element is always present). -/
def removeFirst : List Item → Item → List Item
  | [], _ => []
  | it :: rest, x => if it = x then rest else it :: removeFirst rest x

/-- The `updated` application loop (src/main.py lines 164-168): find the first
item with the given address, apply the new value's fields onto it, stop. -/
def updateFirst : List Item → String → Item → List Item
  | [], _, _ => []
  | it :: rest, k, nv =>
      if it.address = k then it.applyUpdate nv :: rest
      else it :: updateFirst rest k nv

/-- The three merge loops of `update_data` (src/main.py lines 160-168):
append every added item, remove every removed item, update in place. -/
def applyMerge (l : List Item) (added removed updated : Dict) : List Item :=
  let l1 := l ++ added.map Prod.snd
  let l2 := removed.foldl (fun acc kv => removeFirst acc kv.2) l1
  updated.foldl (fun acc kv => updateFirst acc kv.1 kv.2) l2

/-- Result of one reconciliation: the merged list and the three diff dicts. -/
structure ReconResult where
  merged : List Item
  added : Dict
  removed : Dict
  updated : Dict
deriving DecidableEq, Repr

/-- `reconcile(oldList, newList)` — src/main.py lines 151-168. -/
def reconcile (oldL newL : List Item) : ReconResult :=
  let oldD := pyDictOf oldL
  let newD := pyDictOf newL
  let a := addedOf oldD newD
  let r := removedOf oldD newD
  let u := updatedOf oldD newD
  { merged := applyMerge oldL a r u, added := a, removed := r, updated := u }

/-! ## Sorting by the pinyin-derived key

`sorted(..., key=lambda x: [pin for pin in lazy_pinyin(x[name]) if not pin.isdigit()])`
(src/main.py lines 76-80 and 141-145).  `lazy_pinyin` is an external library,
modelled as an abstract function `String → List String`.  Python's `sorted` is
a stable comparison sort on the keys; we model it with a stable insertion
sort.  Keys are compared as Python compares lists of strings: lexicographically
with strings ordered by code points, which is exactly the lexicographic order
on `List (List Char)`. -/

/-- Python `str.isdigit` (ASCII model): nonempty and all digits. -/
def pyIsdigit (s : String) : Bool := !s.toList.isEmpty && s.toList.all Char.isDigit

/-- The sort key: pinyin tokens of the name with purely numeric tokens
removed, each token as its code-point sequence. -/
def sortKey (pinyin : String → List String) (name : String) : List (List Char) :=
  ((pinyin name).filter (fun p => !pyIsdigit p)).map String.toList

/-- Python's `<=` on sort keys (lexicographic list-of-strings comparison). -/
def keyLe (a b : List (List Char)) : Bool := decide (a ≤ b)

/-- Stable insertion (the stability matches Python's stable `sorted`). -/
def insertLe {α : Type} (le : α → α → Bool) (a : α) : List α → List α
  | [] => [a]
  | b :: bs => if le a b then a :: b :: bs else b :: insertLe le a bs

/-- Stable sort by a boolean comparison, modelling Python's `sorted`. -/
def sortLe {α : Type} (le : α → α → Bool) : List α → List α
  | [] => []
  | a :: as => insertLe le a (sortLe le as)

/-! ## Payload preprocessing and `update_data` (src/main.py lines 127-176) -/

/-- The configuration slice `update_data` reads: the ignore set
`config_ignore_urls_set`, the pinyin function, and the configurable key
names `keys['name']` and `keys['pep']` (`keys['address']` and
`keys['result']` are structural in the model). -/
structure Config where
  ignoreSet : List String
  pinyin : String → List String
  nameKey : String
  pepKey : String

/-- The value of the name field when present as a string
(`x[keys['name']]` as consumed by `lazy_pinyin`). -/
def itemName (cfg : Config) (it : Item) : Option String :=
  match it.fields.lookup cfg.nameKey with
  | some (FieldVal.str s) => some s
  | _ => none

/-- Sort key of an item (src/main.py line 144). -/
def itemKey (cfg : Config) (it : Item) : List (List Char) :=
  sortKey cfg.pinyin ((itemName cfg it).getD "")

/-- Comparison used to sort the fetched payload. -/
def itemLe (cfg : Config) (a b : Item) : Bool := keyLe (itemKey cfg a) (itemKey cfg b)

/-- `sorted(new_data[section_key], key=…)` (src/main.py lines 142-145). -/
def sortPayload (cfg : Config) (l : List Item) : List Item :=
  sortLe (itemLe cfg) l

/-- `item.pop(keys['pep'], None)` (src/main.py line 147). -/
def popPep (cfg : Config) (it : Item) : Item :=
  { it with fields := it.fields.filter (fun kv => decide (kv.1 ≠ cfg.pepKey)) }

/-- `item[keys['address']] = old_data[keys['address']] + item[keys['address']]`
(src/main.py line 149): platform addresses are absolutized against the parent. -/
def absolutize (parent : String) (it : Item) : Item :=
  { it with address := parent ++ it.address }

/-- `item[keys['result']] = item.get(keys['result'], 0)` (src/main.py line 150):
a no-op when the key exists, otherwise appends the integer default 0. -/
def setResultDefault (it : Item) : Item :=
  match it.fields.lookup "result" with
  | some _ => it
  | none => { it with fields := it.fields ++ [("result", FieldVal.int 0)] }

/-- The parsed JSON body as far as `update_data` consumes it: either the
section list (every entry carrying an address), or anything that makes the
`try:` block raise before the merge — a missing section key, an entry without
an address, a non-list section, … -/
inductive Payload where
  | malformed : Payload
  | ok : List Item → Payload
deriving DecidableEq, Repr

/-- A Source or Platform node as `update_data` sees `old_data`: its own
address, its `result` counter (`None` when the key is absent — the code reads
it with `.get(result, 0)`), and the section list (platforms of a source,
channels of a platform).  `old_data.setdefault(section_key, [])` is the
empty-list default of `items`. -/
structure Node where
  address : String
  result : Option Int
  items : List Item
deriving DecidableEq, Repr

/-- Lines 137-150 of src/main.py: drop ignored addresses, sort by the pinyin
key when the first entry carries the name key, pop the pep key and — at
platform level — absolutize addresses and default the result field.
`none` models the paths on which the `try:` block raises and `update_data`
sets `result = 0`: an empty filtered list (`new_data[section_key][0]` raises
`IndexError`) and a sort over an entry whose name key is missing or not a
string (`lazy_pinyin(x[name])` raises). -/
def preprocess (cfg : Config) (isPlatform : Bool) (parent : String)
    (payload : List Item) : Option (List Item) :=
  let l := payload.filter (fun it => decide (it.address ∉ cfg.ignoreSet))
  match l with
  | [] => none
  | first :: _ =>
      let sortedL : Option (List Item) :=
        if (first.fields.lookup cfg.nameKey).isSome then
          if l.all (fun it => (itemName cfg it).isSome) then some (sortPayload cfg l)
          else none
        else some l
      sortedL.map (fun l2 => l2.map (fun it =>
        if isPlatform then setResultDefault (absolutize parent (popPep cfg it))
        else popPep cfg it))

/-- `DataUpdater.update_data` (src/main.py lines 127-176) given the outcome of
`fetch_webpage` (`none` = fetch failure, staleness, missing `Last-Modified`
or JSON parse failure — all return `None` there). -/
def update_data (cfg : Config) (isPlatform : Bool) (node : Node)
    (fetched : Option Payload) : Node :=
  match fetched with
  | none => { node with result := some 0 }
  | some Payload.malformed => { node with result := some 0 }
  | some (Payload.ok payload) =>
      match preprocess cfg isPlatform node.address payload with
      | none => { node with result := some 0 }
      | some newList =>
          let r := reconcile node.items newList
          if r.added ≠ [] ∨ r.removed ≠ [] ∨ r.updated ≠ [] then
            { node with items := r.merged, result := some 1 }
          else
            { node with items := r.merged,
                        result := some ((node.result.getD 0 + 1) % 100) }

/-! ## The staleness gate (src/main.py lines 112-125, src/fetch.py lines 28-46)

Wall-clock instants are modelled as integers (seconds); the configured
threshold `timedelta(hours=CONFIG['timeout']['update_threshold'])` as a
number of seconds.  The HTTP response carries an optional parsed
`Last-Modified` instant (`none` = header absent or unparseable, both of which
make the code skip to `return None`) and the body. -/

/-- An HTTP response as `fetch_webpage` consumes it: `failed` covers network
errors, timeouts and a body `json.loads` rejects (all caught and turned into
`None` inside `fetch_webpage`). -/
inductive HttpResp where
  | failed : HttpResp
  | ok : Option Int → Payload → HttpResp
deriving DecidableEq, Repr

/-- `DataUpdater.fetch_webpage` (src/main.py lines 112-125): return the parsed
body only when the declared modification time is strictly fresher than the
threshold; a missing `Last-Modified` falls through to `return None`. -/
def fetch_webpage (now threshold : Int) (resp : HttpResp) : Option Payload :=
  match resp with
  | HttpResp.failed => none
  | HttpResp.ok lastModified body =>
      match lastModified with
      | none => none
      | some t => if now - t < threshold then some body else none

/-- One refresh of a node: fetch through the staleness gate, then reconcile. -/
def refresh (cfg : Config) (isPlatform : Bool) (now threshold : Int)
    (node : Node) (resp : HttpResp) : Node :=
  update_data cfg isPlatform node (fetch_webpage now threshold resp)

/-! ## The probing stage (src/check.py, src/main.py `ChannelChecker`)

The catalog as `check.py`'s `main` reads `pt.json`: sources (field names from
the deployed configuration: platforms under `"pingtai"`, channels under
`"zhubo"`, names under `"title"`).  `result` is `Option Int` because the code
reads it with `.get` (`None` when absent). -/

structure Channel where
  address : String
  title : String
deriving DecidableEq, Repr

structure Platform where
  result : Option Int
  zhubo : List Channel
deriving DecidableEq, Repr

structure Source where
  address : String
  result : Option Int
  pingtai : List Platform
deriving DecidableEq, Repr

/-- Outcome of the raw TCP/RTMP exchange in `rtmp_handshake`: the first
response byte, or the failure the `except` arms catch. -/
inductive RtmpResult where
  | reply : Nat → RtmpResult
  | timeout : RtmpResult
  | refused : RtmpResult
  | connError : RtmpResult
deriving DecidableEq, Repr

/-- The network/subprocess oracles a probe run consults.  `ffmpegModule` is
whether `import ffmpeg` succeeds inside `_check_other`; `probeStreams` is the
number of entries of `ffmpeg.probe(url)['streams']` (`none` when the probe
raises or the key is missing); `ffmpegSubprocessStream` is whether the ffmpeg
subprocess of `_check_rtmp_stream` (src/main.py) printed `Stream #0:` within
its timeout; `httpStatus` is the status an HTTP request for the address would
return (`none` = request fails) — consulted by no code path, only by the
spec-modelled probe below. -/
structure World where
  rtmp : String → Int → RtmpResult
  ffmpegModule : Bool
  probeStreams : String → Option Nat
  ffmpegSubprocessStream : String → Bool
  httpStatus : String → Option Nat

/-- `"rtmp://".startswith` / `.endswith` on code points (the Lean `String`
primitives do not reduce in the kernel, so the model works on `toList`). -/
def strStarts (s pre : String) : Bool := pre.toList.isPrefixOf s.toList

/-- `url.endswith(suffix)` on code points. -/
def strEnds (s suf : String) : Bool := suf.toList.isSuffixOf s.toList

/-- Python `s.split(c, 1)` for a character known to occur: the part before
the first occurrence and the part after it. -/
def splitOnce (c : Char) : List Char → List Char × List Char
  | [] => ([], [])
  | x :: rest =>
      if x = c then ([], rest)
      else
        let p := splitOnce c rest
        (x :: p.1, p.2)

/-- `int(port_str)` as used for the port: an optional sign followed by
decimal digits (a `ValueError` yields `none`). -/
def parseIntStr (s : String) : Option Int :=
  match s.toList with
  | [] => none
  | '-' :: ds =>
      if !ds.isEmpty && ds.all Char.isDigit
      then some (-(ds.foldl (fun n c => 10 * n + (c.toNat - 48)) 0 : Nat))
      else none
  | ds =>
      if ds.all Char.isDigit
      then some ((ds.foldl (fun n c => 10 * n + (c.toNat - 48)) 0 : Nat))
      else none

/-- `parse_rtmp_url` (src/check.py lines 27-63): `(host, port, app, stream)`,
`none` standing for the `(None, None, None, None)` returned on a non-RTMP
scheme. -/
def parse_rtmp_url (url : String) : Option (String × Int × String × String) :=
  if strStarts url "rtmp://" then
    let cs := url.toList.drop 7
    if !cs.contains '/' then some (String.mk cs, 1935, "", "")
    else
      let hp := splitOnce '/' cs
      let hostPort : List Char × Int :=
        if hp.1.contains ':' then
          let hps := splitOnce ':' hp.1
          (hps.1, match parseIntStr (String.mk hps.2) with
                  | some p => p
                  | none => 1935)
        else (hp.1, 1935)
      let appStream : List Char × List Char :=
        if hp.2.contains '/' then splitOnce '/' hp.2
        else (hp.2, [])
      let stream :=
        if appStream.2.contains '?' then (splitOnce '?' appStream.2).1
        else appStream.2
      some (String.mk hostPort.1, hostPort.2, String.mk appStream.1, String.mk stream)
  else none

/-- `rtmp_handshake` (src/check.py lines 65-92): success exactly when the
server answers the C0/C1 frame with the protocol version byte `0x03`;
timeouts, refused connections, other socket errors and unexpected exceptions
all return `False`. -/
def rtmp_handshake (w : World) (host : String) (port : Int) : Bool :=
  match w.rtmp host port with
  | RtmpResult.reply b => decide (b = 3)
  | RtmpResult.timeout => false
  | RtmpResult.refused => false
  | RtmpResult.connError => false

/-- `_check_rtmp` (src/check.py lines 94-110): parse, then handshake only —
the stream-existence check is deliberately skipped. -/
def checkRtmp (w : World) (url : String) : Bool :=
  match parse_rtmp_url url with
  | none => false
  | some (host, port, _, _) => rtmp_handshake w host port

/-- `_check_other` (src/check.py lines 112-131): with the ffmpeg module
available, succeed iff the probe metadata reports at least one stream.
Without it the fallback raises `NameError` (`subprocess` is never imported in
check.py), which the inner `except Exception` turns into `False`. -/
def checkOther (w : World) (url : String) : Bool :=
  if w.ffmpegModule then
    match w.probeStreams url with
    | some n => decide (0 < n)
    | none => false
  else false

/-- `check_one` (src/check.py lines 133-149): the recorded-media shortcut,
then dispatch on the address scheme; the channel is kept iff the check
succeeds. -/
def check_one (w : World) (ch : Channel) : Option Channel :=
  if strEnds ch.address ".mp4" then some ch
  else if strStarts ch.address "rtmp://" then
    if checkRtmp w ch.address then some ch else none
  else
    if checkOther w ch.address then some ch else none

/-- `check_one` together with its log line (`[KEEP] 录像` / `✅ 在线` /
`❌ 离线`) — the complete per-channel observable outcome of check.py. -/
def check_one_report (w : World) (ch : Channel) : Option Channel × String :=
  if strEnds ch.address ".mp4" then (some ch, "录像")
  else
    let ok := if strStarts ch.address "rtmp://" then checkRtmp w ch.address
              else checkOther w ch.address
    (if ok then some ch else none, if ok then "在线" else "离线")

/-- `check_one` instrumented with the number of network/subprocess operations
it performs: the recorded-media branch touches nothing, each other branch
performs exactly one probe (one socket handshake or one demuxer invocation). -/
def check_one_trace (w : World) (ch : Channel) : Option Channel × Nat :=
  if strEnds ch.address ".mp4" then (some ch, 0)
  else if strStarts ch.address "rtmp://" then
    (if checkRtmp w ch.address then some ch else none, 1)
  else
    (if checkOther w ch.address then some ch else none, 1)

/-- The dedup loop of `check.py main` (lines 156-166): keep the first record
for each nonempty address not yet seen. -/
def uniqueByAddress (seen : List String) : List Channel → List Channel
  | [] => []
  | ch :: rest =>
      if ch.address ≠ "" ∧ ch.address ∉ seen then
        ch :: uniqueByAddress (ch.address :: seen) rest
      else uniqueByAddress seen rest

/-- The probe set of `check.py main`: channels of sources whose `result` is
exactly 1 (`src.get("result") != 1: continue`), flattened over platforms
(no platform-level filter there), deduplicated by address. -/
def checkpyChannels (pt : List Source) : List Channel :=
  uniqueByAddress []
    ((pt.filter (fun s => decide (s.result = some 1))).flatMap
      (fun s => s.pingtai.flatMap (fun p => p.zhubo)))

/-- The live list `check.py main` writes to `ch.json`: the probed channels
whose `check_one` returned the record.  `as_completed` makes the file order
nondeterministic; the set of records is the contract and is order-independent,
so the model keeps submission order. -/
def liveChannels (w : World) (pt : List Source) : List Channel :=
  (checkpyChannels pt).filter (fun ch => (check_one w ch).isSome)

/-! ## `DataProcessor.sorted_unique_channels` and `ChannelChecker`
(src/main.py lines 62-80 and 201-264) -/

/-- The collection loop of `sorted_unique_channels`: sources with
`result > 0`, platforms with `result > 0`, their channels in order. -/
def eligibleChannels (pt : List Source) : List Channel :=
  (pt.filter (fun s => decide (0 < s.result.getD 0))).flatMap (fun s =>
    (s.pingtai.filter (fun p => decide (0 < p.result.getD 0))).flatMap
      (fun p => p.zhubo))

/-- Sort key of a channel (src/main.py lines 76-78): pinyin of the title with
purely numeric tokens dropped. -/
def chKey (pinyin : String → List String) (ch : Channel) : List (List Char) :=
  sortKey pinyin ch.title

/-- Key comparison for the final `sorted(...)` of line 80. -/
def chKeyLe (pinyin : String → List String) (a b : Channel) : Bool :=
  keyLe (chKey pinyin a) (chKey pinyin b)

/-- `DataProcessor.sorted_unique_channels` (src/main.py lines 62-80):
first-wins dedup by address over the eligible channels, then a stable sort by
the pinyin key. -/
def sorted_unique_channels (pinyin : String → List String) (pt : List Source) :
    List Channel :=
  sortLe (chKeyLe pinyin) (uniqueByAddress [] (eligibleChannels pt))

/-- `ChannelChecker._check_rtmp_stream` (src/main.py lines 210-221): spawn
ffmpeg, succeed iff its diagnostics mention a detected stream; any exception
(including the 10s timeout) yields `False`. -/
def checkRtmpStream (w : World) (url : String) : Bool :=
  w.ffmpegSubprocessStream url

/-- `ChannelChecker._check_non_rtmp_stream` (src/main.py lines 223-229). -/
def checkNonRtmpStream (w : World) (url : String) : Bool :=
  match w.probeStreams url with
  | some n => decide (0 < n)
  | none => false

/-- `ChannelChecker.get_stream_status` (src/main.py lines 231-242).  The
`except` arm returning `("错误", msg)` is unreachable in the model because
both checks already swallow their exceptions. -/
def get_stream_status (w : World) (url : String) : String × Option String :=
  if strEnds url ".mp4" then ("录像", none)
  else if strStarts url "rtmp://" then
    ((if checkRtmpStream w url then "在线" else "离线"), none)
  else
    ((if checkNonRtmpStream w url then "在线" else "离线"), none)

/-- Modelled from the spec (§4.2, claim C6) and compared against the code:
the tier-1 HTTP probe the spec describes — a ranged request with
redirect-following whose success criterion is any response status below 400.
The repository has no such probe; this definition exists only to be measured
against `checkOther`. -/
def spec_http_probe (w : World) (url : String) : Bool :=
  match w.httpStatus url with
  | some status => decide (status < 400)
  | none => false

/-! ## `update_source` (src/fetch.py lines 48-71)

The standalone fetch script rebuilds each Source node from scratch on every
run: it starts from a fresh `{"address": url, "result": 0, "pingtai": []}`,
discards it only on index-fetch failure, fills the platforms' channel lists
from concurrent fetches, and sets `result = 1` on every successful index
fetch — it never reads the previous cycle's node and `main()` overwrites
`pt.json` wholesale with the rebuilt list. -/

/-- One platform entry of the fetched index as `update_source` consumes it:
its relative address and the `result` value the wire payload already carries,
if any (`pf.setdefault` only writes when the key is absent).  The entries'
other fields play no role in `update_source`. -/
structure WirePlatform where
  address : String
  result : Option Int
deriving DecidableEq, Repr

/-- A platform after `update_source` processed it: the channel list fetched
for it (the `zhubo` key) and the defaulted result.  A platform left untouched
by the `zip` (see `zipFill`) has no `zhubo` key at all; downstream readers use
`.get(zhubo, [])`, so the model represents the missing key as `[]`. -/
structure SrcPlatform where
  address : String
  result : Option Int
  zhubo : List Channel
deriving DecidableEq, Repr

/-- A Source node as fetch.py's `update_source` returns it. -/
structure SrcNode where
  address : String
  result : Int
  pingtai : List SrcPlatform
deriving DecidableEq, Repr

/-- Lines 65-67 of src/fetch.py, one platform:
`pf[zhubo] = ch_data.get(zhubo, []) if ch_data else []` and
`pf.setdefault(result, 1 if ch_data else 0)`. -/
def fillPlatform (pf : WirePlatform) (chData : Option (List Channel)) :
    SrcPlatform :=
  { address := pf.address,
    result := match pf.result with
              | some r => some r
              | none => some (if chData.isSome then 1 else 0),
    zhubo := match chData with
             | some chs => chs
             | none => [] }

/-- `zip(platforms, ch_results)` of src/fetch.py line 65: `platforms` is the
UNFILTERED list while `ch_results` is aligned with the ignore-filtered one, so
`zip` truncates and pairs greedily; platforms beyond the shorter list are left
untouched (no channel list, wire result kept). -/
def zipFill : List WirePlatform → List (Option (List Channel)) → List SrcPlatform
  | [], _ => []
  | pfs, [] => pfs.map (fun pf => { address := pf.address, result := pf.result,
                                    zhubo := [] })
  | pf :: pfs, cd :: cds => fillPlatform pf cd :: zipFill pfs cds

/-- `update_source` (src/fetch.py lines 48-71).  `indexData` is the outcome
of `fetch(session, src_url + SUFFIX)`: `none` covers a network error, a stale
or missing `Last-Modified`, and a falsy body (`if not data`); `some platforms`
is the index's platform list (`data.get(pingtai, [])`).  `chFetch url` is the
outcome of the channel-list fetch for `url` under the same gate. -/
def update_source (ignore : List String) (srcUrl : String)
    (indexData : Option (List WirePlatform))
    (chFetch : String → Option (List Channel)) : SrcNode :=
  match indexData with
  | none => { address := srcUrl, result := 0, pingtai := [] }
  | some platforms =>
      let chResults :=
        (platforms.filter (fun pf => decide (pf.address ∉ ignore))).map
          (fun pf => chFetch (srcUrl ++ pf.address))
      { address := srcUrl, result := 1, pingtai := zipFill platforms chResults }

/-! ## Concrete instances used by witnesses and counterexamples -/

/-- A concrete configuration: empty ignore set, pass-through pinyin
(what `lazy_pinyin` does on a pure-ASCII title). -/
def cfgId : Config := ⟨[], fun s => [s], "title", "pep"⟩

def itemA : Item := ⟨"http://s/a", [("title", FieldVal.str "a")]⟩

def itemB : Item := ⟨"http://s/b", [("title", FieldVal.str "b"), ("x", FieldVal.int 1)]⟩

/-- Same address as `itemB`, different value (a structural update). -/
def itemB2 : Item := ⟨"http://s/b", [("title", FieldVal.str "b2")]⟩

def itemC : Item := ⟨"http://s/c", [("title", FieldVal.str "c")]⟩

def nodeW : Node := ⟨"http://src", some 5, [itemA, itemB]⟩

def wLive : World :=
  ⟨fun _ _ => RtmpResult.reply 3, true, fun _ => some 1, fun _ => true, fun _ => some 200⟩

def wTimeout : World :=
  ⟨fun _ _ => RtmpResult.timeout, true, fun _ => none, fun _ => false, fun _ => none⟩

def wRefused : World :=
  ⟨fun _ _ => RtmpResult.refused, true, fun _ => none, fun _ => false, fun _ => none⟩

/-- A world in which the HTTP server answers 200 for every address but the
demuxer finds no streams anywhere. -/
def wHttpOnly : World :=
  ⟨fun _ _ => RtmpResult.refused, true, fun _ => some 0, fun _ => false, fun _ => some 200⟩

def dupA : Channel := ⟨"http://dup/x", "t1"⟩

def dupB : Channel := ⟨"http://dup/x", "t2"⟩

/-- One source (result 1) holding the same address under two platforms. -/
def ptDup : List Source := [⟨"s1", some 1, [⟨some 1, [dupA]⟩, ⟨some 1, [dupB]⟩]⟩]

def itTa : Item := ⟨"u1", [("title", FieldVal.str "a")]⟩

def itTb : Item := ⟨"u2", [("title", FieldVal.str "b")]⟩

/-- The platform entry the index payload delivers in the C2 scenario. -/
def wirePfA : WirePlatform := ⟨"pfa.json", some 1⟩

/-- The Source node a previous cycle left in `pt.json`: heartbeat counter 5
and a nonempty subtree — exactly what `update_source` would rebuild from an
unchanged upstream, except for the counter. -/
def priorSrcNode : SrcNode :=
  ⟨"http://root/", 5, [⟨"pfa.json", some 1, [dupA]⟩]⟩

/-- The channel fetch of the C2 scenario: the platform's channel list is
available and identical to the stored one. -/
def chFetchA : String → Option (List Channel) :=
  fun u => if u = "http://root/pfa.json" then some [dupA] else none

/-! # Lemmas

## The dict model -/

/-! # Lemmas

## The dict model -/

theorem lookupD_isSome_iff (d : Dict) (k : String) :
    (lookupD d k).isSome = true ↔ k ∈ d.map Prod.fst := by
  induction d with
  | nil => simp [lookupD]
  | cons kv rest ih =>
      obtain ⟨k1, v⟩ := kv
      by_cases h : k1 = k
      · subst h; simp [lookupD]
      · simp only [lookupD, if_neg h, List.map_cons, List.mem_cons, ih]
        constructor
        · exact Or.inr
        · rintro (rfl | hx)
          · exact absurd rfl h
          · exact hx

theorem lookupD_eq_none_iff (d : Dict) (k : String) :
    lookupD d k = none ↔ k ∉ d.map Prod.fst := by
  rw [← lookupD_isSome_iff]
  cases lookupD d k <;> simp

theorem pyInsert_map_fst (d : Dict) (k : String) (v : Item) :
    (pyInsert d k v).map Prod.fst =
      if (lookupD d k).isSome = true then d.map Prod.fst
      else d.map Prod.fst ++ [k] := by
  unfold pyInsert
  by_cases h : (lookupD d k).isSome = true
  · rw [if_pos h, if_pos h, List.map_map]
    apply List.map_congr_left
    intro kv _
    by_cases hk : kv.1 = k
    · simp [hk]
    · simp [hk]
  · rw [if_neg h, if_neg h]
    simp

theorem pyInsert_coherent {d : Dict} {k : String} {v : Item}
    (hd : ∀ kv ∈ d, (kv : String × Item).2.address = kv.1) (hv : v.address = k) :
    ∀ kv ∈ pyInsert d k v, (kv : String × Item).2.address = kv.1 := by
  intro kv hkv
  unfold pyInsert at hkv
  by_cases h : (lookupD d k).isSome = true
  · rw [if_pos h] at hkv
    rw [List.mem_map] at hkv
    obtain ⟨kv0, hkv0, heq⟩ := hkv
    by_cases hk : kv0.1 = k
    · rw [if_pos hk] at heq
      rw [← heq]
      exact hv
    · rw [if_neg hk] at heq
      rw [← heq]
      exact hd kv0 hkv0
  · rw [if_neg h] at hkv
    rcases List.mem_append.mp hkv with hkv2 | hkv2
    · exact hd kv hkv2
    · rw [List.mem_singleton] at hkv2
      subst hkv2
      exact hv

theorem pyDictOf_coherent (l : List Item) :
    ∀ kv ∈ pyDictOf l, (kv : String × Item).2.address = kv.1 := by
  suffices h : ∀ (l : List Item) (d : Dict),
      (∀ kv ∈ d, (kv : String × Item).2.address = kv.1) →
      ∀ kv ∈ l.foldl (fun d it => pyInsert d it.address it) d,
        (kv : String × Item).2.address = kv.1 by
    exact h l [] (by simp)
  intro l
  induction l with
  | nil => intro d hd; simpa using hd
  | cons it rest ih =>
      intro d hd
      simp only [List.foldl_cons]
      exact ih _ (pyInsert_coherent hd rfl)

theorem pyDictOf_fst_nodup (l : List Item) : ((pyDictOf l).map Prod.fst).Nodup := by
  suffices h : ∀ (l : List Item) (d : Dict), (d.map Prod.fst).Nodup →
      ((l.foldl (fun d it => pyInsert d it.address it) d).map Prod.fst).Nodup by
    exact h l [] (by simp)
  intro l
  induction l with
  | nil => intro d hd; simpa using hd
  | cons it rest ih =>
      intro d hd
      simp only [List.foldl_cons]
      apply ih
      rw [pyInsert_map_fst]
      by_cases hs : (lookupD d it.address).isSome = true
      · rw [if_pos hs]; exact hd
      · rw [if_neg hs]
        refine hd.append (List.nodup_singleton _) ?_
        intro a ha ha1
        rw [List.mem_singleton] at ha1
        subst ha1
        exact hs ((lookupD_isSome_iff d _).mpr ha)

theorem pyDictOf_mem_fst (l : List Item) (x : String) :
    x ∈ (pyDictOf l).map Prod.fst ↔ x ∈ l.map Item.address := by
  suffices h : ∀ (l : List Item) (d : Dict) (x : String),
      (x ∈ (l.foldl (fun d it => pyInsert d it.address it) d).map Prod.fst ↔
        x ∈ d.map Prod.fst ∨ x ∈ l.map Item.address) by
    simpa using h l [] x
  intro l
  induction l with
  | nil => intro d x; simp
  | cons it rest ih =>
      intro d x
      simp only [List.foldl_cons, List.map_cons, List.mem_cons]
      rw [ih, pyInsert_map_fst]
      by_cases hs : (lookupD d it.address).isSome = true
      · rw [if_pos hs]
        constructor
        · rintro (hx | hx)
          · exact Or.inl hx
          · exact Or.inr (Or.inr hx)
        · rintro (hx | rfl | hx)
          · exact Or.inl hx
          · exact Or.inl ((lookupD_isSome_iff d it.address).mp hs)
          · exact Or.inr hx
      · rw [if_neg hs]
        simp only [List.mem_append, List.mem_singleton]
        tauto

theorem pyDictOf_eq_map {l : List Item} (h : (l.map Item.address).Nodup) :
    pyDictOf l = l.map (fun it => (it.address, it)) := by
  suffices hh : ∀ (l : List Item) (d : Dict), (l.map Item.address).Nodup →
      (∀ it ∈ l, it.address ∉ d.map Prod.fst) →
      l.foldl (fun d it => pyInsert d it.address it) d =
        d ++ l.map (fun it => (it.address, it)) by
    simpa using hh l [] h (by simp)
  intro l
  induction l with
  | nil => intro d _ _; simp
  | cons it rest ih =>
      intro d hnd hdisj
      simp only [List.map_cons, List.nodup_cons] at hnd
      simp only [List.foldl_cons]
      have hnotin : it.address ∉ d.map Prod.fst := hdisj it (List.mem_cons_self it rest)
      have hins : pyInsert d it.address it = d ++ [(it.address, it)] := by
        unfold pyInsert
        have hno : ¬ (lookupD d it.address).isSome = true := by
          rw [lookupD_isSome_iff]; exact hnotin
        rw [if_neg hno]
      rw [hins, ih (d ++ [(it.address, it)]) hnd.2 ?_]
      · simp
      · intro x hx
        simp only [List.map_append, List.mem_append, List.map_cons, List.map_nil,
          List.mem_singleton, not_or]
        refine ⟨hdisj x (List.mem_cons_of_mem it hx), ?_⟩
        intro hEq
        exact hnd.1 (hEq ▸ List.mem_map_of_mem Item.address hx)

theorem findByAddr_cons (it : Item) (rest : List Item) (k : String) :
    findByAddr (it :: rest) k =
      if it.address = k then some it else findByAddr rest k := by
  unfold findByAddr
  rw [List.find?_cons]
  by_cases h : it.address = k
  · simp [h]
  · simp [h]

theorem lookupD_map_pair (l : List Item) (k : String) :
    lookupD (l.map (fun it => (it.address, it))) k = findByAddr l k := by
  induction l with
  | nil => rfl
  | cons it rest ih =>
      simp only [List.map_cons, lookupD]
      rw [findByAddr_cons]
      by_cases h : it.address = k
      · rw [if_pos h, if_pos h]
      · rw [if_neg h, if_neg h, ih]

theorem findByAddr_isSome_iff (l : List Item) (k : String) :
    (findByAddr l k).isSome = true ↔ k ∈ l.map Item.address := by
  unfold findByAddr
  rw [List.find?_isSome]
  simp only [List.mem_map, decide_eq_true_eq]

theorem findByAddr_eq_none_iff (l : List Item) (k : String) :
    findByAddr l k = none ↔ k ∉ l.map Item.address := by
  rw [← findByAddr_isSome_iff]
  cases findByAddr l k <;> simp

theorem findByAddr_eq_some_iff {l : List Item} (h : (l.map Item.address).Nodup)
    (k : String) (x : Item) :
    findByAddr l k = some x ↔ x ∈ l ∧ x.address = k := by
  induction l with
  | nil => simp [findByAddr]
  | cons it rest ih =>
      simp only [List.map_cons, List.nodup_cons] at h
      rw [findByAddr_cons]
      by_cases hk : it.address = k
      · rw [if_pos hk]
        constructor
        · intro h2
          rw [Option.some_inj] at h2
          exact ⟨h2 ▸ List.mem_cons_self it rest, h2 ▸ hk⟩
        · rintro ⟨hmem, hx⟩
          rcases List.mem_cons.mp hmem with rfl | hmem2
          · rfl
          · exfalso
            apply h.1
            rw [hk, ← hx]
            exact List.mem_map_of_mem Item.address hmem2
      · rw [if_neg hk, ih h.2]
        constructor
        · rintro ⟨hmem, hx⟩
          exact ⟨List.mem_cons_of_mem it hmem, hx⟩
        · rintro ⟨hmem, hx⟩
          rcases List.mem_cons.mp hmem with rfl | hmem2
          · exact absurd hx hk
          · exact ⟨hmem2, hx⟩

theorem findByAddr_self {l : List Item} (h : (l.map Item.address).Nodup)
    {x : Item} (hx : x ∈ l) : findByAddr l x.address = some x :=
  (findByAddr_eq_some_iff h _ x).mpr ⟨hx, rfl⟩

/-! ## The merge loops -/

theorem removeFirst_sublist (l : List Item) (x : Item) :
    (removeFirst l x).Sublist l := by
  induction l with
  | nil => simp [removeFirst]
  | cons it rest ih =>
      unfold removeFirst
      by_cases h : it = x
      · rw [if_pos h]
        exact List.sublist_cons_self it rest
      · rw [if_neg h]
        exact ih.cons₂ it

theorem removeFirst_cons_self (x : Item) (l : List Item) :
    removeFirst (x :: l) x = l := by
  show (if x = x then l else x :: removeFirst l x) = l
  rw [if_pos rfl]

theorem removeFirst_cons_ne {y x : Item} (h : y ≠ x) (l : List Item) :
    removeFirst (y :: l) x = y :: removeFirst l x := by
  show (if y = x then l else y :: removeFirst l x) = y :: removeFirst l x
  rw [if_neg h]

theorem foldl_removeFirst_sublist (rs : List Item) (l : List Item) :
    (rs.foldl (fun acc y => removeFirst acc y) l).Sublist l := by
  induction rs generalizing l with
  | nil => simp
  | cons r rest ih =>
      simp only [List.foldl_cons]
      exact (ih (removeFirst l r)).trans (removeFirst_sublist l r)

theorem foldl_removeFirst_cons_ne {rs : List Item} {y : Item}
    (h : ∀ r ∈ rs, r ≠ y) (m : List Item) :
    rs.foldl (fun acc x => removeFirst acc x) (y :: m) =
      y :: rs.foldl (fun acc x => removeFirst acc x) m := by
  induction rs generalizing m with
  | nil => simp
  | cons r rest ih =>
      simp only [List.foldl_cons]
      rw [removeFirst_cons_ne (fun hEq => h r (List.mem_cons_self r rest) hEq.symm) m]
      exact ih (fun x hx => h x (List.mem_cons_of_mem r hx)) (removeFirst m r)

/-- The removal loop on `oldList ++ rest`: removing exactly the items of
`oldList` failing `p` (each present once, none of them in `rest`) keeps the
items of `oldList` passing `p`, in order, and leaves `rest` alone. -/
theorem foldl_removeFirst_filter (l rest : List Item) (p : Item → Bool)
    (hl : l.Nodup) (hdisj : ∀ x ∈ l, x ∉ rest) :
    (l.filter (fun x => !p x)).foldl (fun acc y => removeFirst acc y) (l ++ rest) =
      l.filter p ++ rest := by
  induction l with
  | nil => simp
  | cons x xs ih =>
      rw [List.nodup_cons] at hl
      have hdisj2 : ∀ y ∈ xs, y ∉ rest := fun y hy => hdisj y (List.mem_cons_of_mem x hy)
      by_cases hp : p x = true
      · rw [List.filter_cons_of_neg (by simp [hp]), List.filter_cons_of_pos hp,
          List.cons_append]
        rw [foldl_removeFirst_cons_ne ?_ (xs ++ rest)]
        · rw [ih hl.2 hdisj2]
          rfl
        · intro r hr
          rcases List.mem_filter.mp hr with ⟨hr2, _⟩
          intro hEq
          exact hl.1 (hEq ▸ hr2)
      · rw [List.filter_cons_of_pos (by simp [hp]), List.filter_cons_of_neg hp,
          List.cons_append]
        simp only [List.foldl_cons]
        rw [removeFirst_cons_self]
        exact ih hl.2 hdisj2

theorem updateFirst_map_address {l : List Item} {k : String} {nv : Item}
    (hk : nv.address = k) :
    (updateFirst l k nv).map Item.address = l.map Item.address := by
  induction l with
  | nil => rfl
  | cons it rest ih =>
      show (List.map Item.address
        (if it.address = k then it.applyUpdate nv :: rest
         else it :: updateFirst rest k nv)) = _
      by_cases h : it.address = k
      · rw [if_pos h, List.map_cons, List.map_cons]
        congr 1
        show nv.address = it.address
        rw [hk, h]
      · rw [if_neg h, List.map_cons, List.map_cons, ih]

theorem foldl_updateFirst_map_address (us : Dict) (l : List Item)
    (hc : ∀ kv ∈ us, (kv : String × Item).2.address = kv.1) :
    (us.foldl (fun acc kv => updateFirst acc kv.1 kv.2) l).map Item.address =
      l.map Item.address := by
  induction us generalizing l with
  | nil => simp
  | cons kv rest ih =>
      simp only [List.foldl_cons]
      rw [ih _ (fun x hx => hc x (List.mem_cons_of_mem kv hx))]
      exact updateFirst_map_address (hc kv (List.mem_cons_self kv rest))

/-- C8 building block: the first merge stage `oldList + added.values()` has
pairwise-distinct addresses whenever `oldList` does — the dict comprehension
over the payload already deduplicated the added keys, and each of them is
absent from `oldList`. -/
theorem stage_one_address_nodup (oldL newL : List Item)
    (h : (oldL.map Item.address).Nodup) :
    ((oldL ++ (addedOf (pyDictOf oldL) (pyDictOf newL)).map Prod.snd).map
      Item.address).Nodup := by
  rw [List.map_append]
  have hcoh : ∀ kv ∈ addedOf (pyDictOf oldL) (pyDictOf newL),
      (kv : String × Item).2.address = kv.1 := by
    intro kv hkv
    exact pyDictOf_coherent newL kv (List.mem_of_mem_filter hkv)
  have hmapmap : ((addedOf (pyDictOf oldL) (pyDictOf newL)).map Prod.snd).map
      Item.address = (addedOf (pyDictOf oldL) (pyDictOf newL)).map Prod.fst := by
    rw [List.map_map]
    exact List.map_congr_left hcoh
  rw [hmapmap]
  refine h.append ?_ ?_
  · exact ((List.filter_sublist _).map Prod.fst).nodup (pyDictOf_fst_nodup newL)
  · intro a ha hb
    rw [List.mem_map] at hb
    obtain ⟨kv, hkv, rfl⟩ := hb
    have hnone := (List.mem_filter.mp hkv).2
    rw [Option.isNone_iff_eq_none, lookupD_eq_none_iff] at hnone
    exact hnone ((pyDictOf_mem_fst oldL kv.1).mpr ha)

/-- C8 core: the whole merge keeps addresses pairwise distinct. -/
theorem applyMerge_address_nodup (oldL newL : List Item)
    (h : (oldL.map Item.address).Nodup) :
    ((applyMerge oldL (addedOf (pyDictOf oldL) (pyDictOf newL))
        (removedOf (pyDictOf oldL) (pyDictOf newL))
        (updatedOf (pyDictOf oldL) (pyDictOf newL))).map Item.address).Nodup := by
  unfold applyMerge
  have hcohu : ∀ kv ∈ updatedOf (pyDictOf oldL) (pyDictOf newL),
      (kv : String × Item).2.address = kv.1 := by
    intro kv hkv
    exact pyDictOf_coherent newL kv (List.mem_of_mem_filter hkv)
  rw [foldl_updateFirst_map_address _ _ hcohu]
  have hsub : ((removedOf (pyDictOf oldL) (pyDictOf newL)).foldl
      (fun acc kv => removeFirst acc kv.2)
      (oldL ++ (addedOf (pyDictOf oldL) (pyDictOf newL)).map Prod.snd)).Sublist
      (oldL ++ (addedOf (pyDictOf oldL) (pyDictOf newL)).map Prod.snd) := by
    rw [← List.foldl_map Prod.snd (fun acc y => removeFirst acc y)]
    exact foldl_removeFirst_sublist _ _
  exact (hsub.map Item.address).nodup (stage_one_address_nodup oldL newL h)

/-! ## The reconciliation diff under unique addresses -/

theorem findByAddr_mem {l : List Item} {k : String} {x : Item}
    (h : findByAddr l k = some x) : x ∈ l ∧ x.address = k := by
  refine ⟨List.mem_of_find?_eq_some h, ?_⟩
  have h2 := List.find?_some h
  simpa using h2

theorem lookupD_pyDictOf {oldL : List Item} (ho : (oldL.map Item.address).Nodup)
    (k : String) : lookupD (pyDictOf oldL) k = findByAddr oldL k := by
  rw [pyDictOf_eq_map ho, lookupD_map_pair]

theorem lookupD_pyDictOf_isNone (oldL : List Item) (k : String) :
    (lookupD (pyDictOf oldL) k).isNone = (findByAddr oldL k).isNone := by
  rcases h1 : lookupD (pyDictOf oldL) k with _ | v
  · rw [lookupD_eq_none_iff, pyDictOf_mem_fst, ← findByAddr_eq_none_iff] at h1
    rw [h1]
  · have h2 : k ∈ oldL.map Item.address := by
      rw [← pyDictOf_mem_fst, ← lookupD_isSome_iff, h1]
      rfl
    rw [← findByAddr_isSome_iff] at h2
    rcases h3 : findByAddr oldL k with _ | w
    · rw [h3] at h2; cases h2
    · rfl

theorem addedOf_eq {oldL newL : List Item} (hn : (newL.map Item.address).Nodup) :
    addedOf (pyDictOf oldL) (pyDictOf newL) =
      (newL.filter (fun it => (findByAddr oldL it.address).isNone)).map
        (fun it => (it.address, it)) := by
  unfold addedOf
  rw [pyDictOf_eq_map hn, List.filter_map]
  congr 1
  apply List.filter_congr
  intro it _
  show (lookupD (pyDictOf oldL) it.address).isNone = (findByAddr oldL it.address).isNone
  exact lookupD_pyDictOf_isNone oldL it.address

theorem removedOf_eq {oldL newL : List Item} (ho : (oldL.map Item.address).Nodup) :
    removedOf (pyDictOf oldL) (pyDictOf newL) =
      (oldL.filter (fun it => (findByAddr newL it.address).isNone)).map
        (fun it => (it.address, it)) := by
  unfold removedOf
  rw [pyDictOf_eq_map ho, List.filter_map]
  congr 1
  apply List.filter_congr
  intro it _
  show (lookupD (pyDictOf newL) it.address).isNone = (findByAddr newL it.address).isNone
  exact lookupD_pyDictOf_isNone newL it.address

theorem updatedOf_eq {oldL newL : List Item} (ho : (oldL.map Item.address).Nodup)
    (hn : (newL.map Item.address).Nodup) :
    updatedOf (pyDictOf oldL) (pyDictOf newL) =
      (newL.filter (fun it =>
        match findByAddr oldL it.address with
        | some ov => decide (it ≠ ov)
        | none => false)).map (fun it => (it.address, it)) := by
  unfold updatedOf
  rw [pyDictOf_eq_map hn, List.filter_map]
  congr 1
  apply List.filter_congr
  intro it _
  show (match lookupD (pyDictOf oldL) it.address with
        | some ov => decide (it ≠ ov)
        | none => false) =
       (match findByAddr oldL it.address with
        | some ov => decide (it ≠ ov)
        | none => false)
  rw [lookupD_pyDictOf ho]

/-! ## The update loop as a pointwise map -/

theorem updateFirst_eq_map {l : List Item} (hl : (l.map Item.address).Nodup)
    (k : String) (nv : Item) :
    updateFirst l k nv =
      l.map (fun it => if it.address = k then it.applyUpdate nv else it) := by
  induction l with
  | nil => rfl
  | cons it rest ih =>
      rw [List.map_cons, List.nodup_cons] at hl
      show (if it.address = k then it.applyUpdate nv :: rest
            else it :: updateFirst rest k nv) = _
      by_cases h : it.address = k
      · rw [if_pos h, List.map_cons, if_pos h]
        congr 1
        have hrest : rest.map
            (fun it => if it.address = k then it.applyUpdate nv else it) =
            rest.map (fun it => it) := by
          apply List.map_congr_left
          intro x hx
          rw [if_neg ?_]
          intro hEq
          exact hl.1 (h ▸ hEq ▸ List.mem_map_of_mem Item.address hx)
        rw [hrest, List.map_id']
      · rw [if_neg h, List.map_cons, if_neg h, ih hl.2]

/-- One pass of the update loop, seen from a single item. -/
def applySeq (us : List Item) (it : Item) : Item :=
  us.foldl (fun x u => if x.address = u.address then x.applyUpdate u else x) it

theorem applySeq_address (us : List Item) (it : Item) :
    (applySeq us it).address = it.address := by
  induction us generalizing it with
  | nil => rfl
  | cons u rest ih =>
      unfold applySeq at *
      simp only [List.foldl_cons]
      by_cases h : it.address = u.address
      · rw [if_pos h, ih]
        show u.address = it.address
        exact h.symm
      · rw [if_neg h, ih]

theorem applySeq_no_match {us : List Item} {it : Item}
    (h : ∀ u ∈ us, u.address ≠ it.address) : applySeq us it = it := by
  induction us with
  | nil => rfl
  | cons u rest ih =>
      unfold applySeq
      simp only [List.foldl_cons]
      rw [if_neg (fun hEq => h u (List.mem_cons_self u rest) hEq.symm)]
      exact ih (fun v hv => h v (List.mem_cons_of_mem u hv))

theorem applySeq_single_match {us : List Item} {it u0 : Item}
    (hnd : (us.map Item.address).Nodup) (hmem : u0 ∈ us)
    (haddr : u0.address = it.address) :
    applySeq us it = it.applyUpdate u0 := by
  induction us with
  | nil => cases hmem
  | cons u rest ih =>
      rw [List.map_cons, List.nodup_cons] at hnd
      rcases List.mem_cons.mp hmem with rfl | hmem2
      · unfold applySeq
        simp only [List.foldl_cons]
        rw [if_pos haddr.symm]
        apply applySeq_no_match
        intro v hv hEq
        apply hnd.1
        have hupd : (it.applyUpdate u0).address = u0.address := rfl
        rw [hupd] at hEq
        exact hEq ▸ List.mem_map_of_mem Item.address hv
      · unfold applySeq
        simp only [List.foldl_cons]
        rw [if_neg ?_]
        · exact ih hnd.2 hmem2
        · intro hEq
          apply hnd.1
          have hu : u.address = u0.address := by rw [← hEq, haddr]
          rw [hu]
          exact List.mem_map_of_mem Item.address hmem2

theorem foldl_updateFirst_eq_map {us l : List Item}
    (hl : (l.map Item.address).Nodup) :
    us.foldl (fun acc u => updateFirst acc u.address u) l =
      l.map (applySeq us) := by
  induction us generalizing l with
  | nil =>
      simp only [List.foldl_nil]
      rw [show l.map (applySeq []) = l.map (fun it => it) from rfl, List.map_id']
  | cons u rest ih =>
      simp only [List.foldl_cons]
      rw [updateFirst_eq_map hl u.address u]
      have haddr : (l.map (fun it =>
          if it.address = u.address then it.applyUpdate u else it)).map Item.address =
          l.map Item.address := by
        rw [List.map_map]
        apply List.map_congr_left
        intro x _
        show (if x.address = u.address then x.applyUpdate u else x).address = x.address
        by_cases h : x.address = u.address
        · rw [if_pos h]
          exact h.symm
        · rw [if_neg h]
      rw [ih (haddr ▸ hl), List.map_map]
      rfl

/-! ## Characterisation of the merged list -/

theorem isNone_eq_not_isSome (o : Option Item) : o.isNone = !o.isSome := by
  cases o <;> rfl

theorem stage_two_address_nodup (oldL newL : List Item)
    (ho : (oldL.map Item.address).Nodup) (hn : (newL.map Item.address).Nodup) :
    ((oldL.filter (fun it => (findByAddr newL it.address).isSome) ++
      newL.filter (fun it => (findByAddr oldL it.address).isNone)).map
        Item.address).Nodup := by
  rw [List.map_append]
  refine List.Nodup.append ?_ ?_ ?_
  · exact ((List.filter_sublist oldL).map Item.address).nodup ho
  · exact ((List.filter_sublist newL).map Item.address).nodup hn
  · intro a ha hb
    rw [List.mem_map] at ha hb
    obtain ⟨x, hx, rfl⟩ := ha
    obtain ⟨y, hy, hxy⟩ := hb
    have hyp := (List.mem_filter.mp hy).2
    rw [Option.isNone_iff_eq_none, findByAddr_eq_none_iff] at hyp
    apply hyp
    rw [hxy]
    exact List.mem_map_of_mem Item.address (List.mem_of_mem_filter hx)

/-- Membership in the `updated` item set implies a differing old entry. -/
theorem mem_updated_filter {oldL : List Item} {u : Item}
    (hu : (match findByAddr oldL u.address with
           | some ov => decide (u ≠ ov)
           | none => false) = true) :
    ∃ ov, findByAddr oldL u.address = some ov ∧ u ≠ ov := by
  rcases h : findByAddr oldL u.address with _ | ov
  · rw [h] at hu
    cases hu
  · rw [h] at hu
    exact ⟨ov, rfl, of_decide_eq_true hu⟩

theorem filterSome_map_applySeq (oldL newL : List Item)
    (ho : (oldL.map Item.address).Nodup) (hn : (newL.map Item.address).Nodup) :
    ∀ l : List Item, (∀ x ∈ l, x ∈ oldL) →
    (l.filter (fun it => (findByAddr newL it.address).isSome)).map
      (applySeq (newL.filter (fun it =>
        match findByAddr oldL it.address with
        | some ov => decide (it ≠ ov)
        | none => false))) =
    l.filterMap (fun oi =>
      match findByAddr newL oi.address with
      | none => none
      | some ni => some (if ni = oi then oi else oi.applyUpdate ni)) := by
  intro l
  induction l with
  | nil => intro _; rfl
  | cons x xs ih =>
      intro hsub
      have hx : x ∈ oldL := hsub x (List.mem_cons_self x xs)
      have hsub2 : ∀ y ∈ xs, y ∈ oldL := fun y hy => hsub y (List.mem_cons_of_mem x hy)
      rcases hfind : findByAddr newL x.address with _ | ni
      · rw [List.filter_cons_of_neg (by rw [hfind]; simp), List.filterMap_cons]
        rw [hfind]
        exact ih hsub2
      · rw [List.filter_cons_of_pos (by rw [hfind]; rfl), List.filterMap_cons]
        rw [hfind, List.map_cons]
        congr 1
        · -- head: the composite update equals the single relevant update
          by_cases hEq : ni = x
          · rw [if_pos hEq]
            apply applySeq_no_match
            intro u hu hau
            have humem := List.mem_filter.mp hu
            have hufind : findByAddr newL u.address = some u :=
              findByAddr_self hn humem.1
            rw [hau, hfind] at hufind
            have hux : u = x := by
              have h2 : ni = u := Option.some_inj.mp hufind
              rw [← h2, hEq]
            obtain ⟨ov, hov, hne⟩ := mem_updated_filter humem.2
            rw [hux, findByAddr_self ho hx] at hov
            apply hne
            rw [hux]
            exact Option.some_inj.mp hov
          · rw [if_neg hEq]
            apply applySeq_single_match
            · exact ((List.filter_sublist newL).map Item.address).nodup hn
            · apply List.mem_filter.mpr
              refine ⟨(findByAddr_mem hfind).1, ?_⟩
              rw [(findByAddr_mem hfind).2, findByAddr_self ho hx]
              exact decide_eq_true hEq
            · exact (findByAddr_mem hfind).2
        · exact ih hsub2

theorem pair_map_snd (l : List Item) :
    (l.map (fun it => (it.address, it))).map Prod.snd = l := by
  rw [List.map_map]
  exact List.map_id' l

theorem foldl_remove_pairs (l : List Item) (X : List Item) :
    (l.map (fun it => (it.address, it))).foldl
      (fun acc kv => removeFirst acc kv.2) X =
    l.foldl (fun acc y => removeFirst acc y) X := by
  rw [List.foldl_map]

theorem foldl_update_pairs (l : List Item) (X : List Item) :
    (l.map (fun it => (it.address, it))).foldl
      (fun acc kv => updateFirst acc kv.1 kv.2) X =
    l.foldl (fun acc u => updateFirst acc u.address u) X := by
  rw [List.foldl_map]

/-- The merged list, characterised: old items whose key survives stay in old
order (updated in place when the new value differs), added items are appended
in payload order, removed keys disappear. -/
theorem reconcile_merged_eq (oldL newL : List Item)
    (ho : (oldL.map Item.address).Nodup) (hn : (newL.map Item.address).Nodup) :
    (reconcile oldL newL).merged =
      oldL.filterMap (fun oi =>
        match findByAddr newL oi.address with
        | none => none
        | some ni => some (if ni = oi then oi else oi.applyUpdate ni)) ++
      newL.filter (fun it => (findByAddr oldL it.address).isNone) := by
  have hstep : (reconcile oldL newL).merged =
      (updatedOf (pyDictOf oldL) (pyDictOf newL)).foldl
        (fun acc kv => updateFirst acc kv.1 kv.2)
        ((removedOf (pyDictOf oldL) (pyDictOf newL)).foldl
          (fun acc kv => removeFirst acc kv.2)
          (oldL ++ (addedOf (pyDictOf oldL) (pyDictOf newL)).map Prod.snd)) := rfl
  rw [hstep, addedOf_eq hn, removedOf_eq ho, updatedOf_eq ho hn, pair_map_snd,
    foldl_remove_pairs, foldl_update_pairs]
  have hfilterR : oldL.filter (fun it => (findByAddr newL it.address).isNone) =
      oldL.filter (fun x => !(findByAddr newL x.address).isSome) := by
    apply List.filter_congr
    intro x _
    exact isNone_eq_not_isSome _
  have hdisj : ∀ x ∈ oldL,
      x ∉ newL.filter (fun it => (findByAddr oldL it.address).isNone) := by
    intro x hx hmem
    have hp := (List.mem_filter.mp hmem).2
    rw [Option.isNone_iff_eq_none, findByAddr_eq_none_iff] at hp
    exact hp (List.mem_map_of_mem Item.address hx)
  rw [hfilterR,
    foldl_removeFirst_filter oldL
      (newL.filter (fun it => (findByAddr oldL it.address).isNone))
      (fun it => (findByAddr newL it.address).isSome)
      (ho.of_map Item.address) hdisj,
    foldl_updateFirst_eq_map (stage_two_address_nodup oldL newL ho hn),
    List.map_append]
  congr 1
  · exact filterSome_map_applySeq oldL newL ho hn oldL (fun x hx => hx)
  · have hid : ∀ x ∈ newL.filter (fun it => (findByAddr oldL it.address).isNone),
        applySeq (newL.filter (fun it =>
          match findByAddr oldL it.address with
          | some ov => decide (it ≠ ov)
          | none => false)) x = x := by
      intro x hxA
      apply applySeq_no_match
      intro u hu hau
      obtain ⟨ov, hov, _⟩ := mem_updated_filter (List.mem_filter.mp hu).2
      have hmemaddr : u.address ∈ oldL.map Item.address := by
        rw [← findByAddr_isSome_iff, hov]
        rfl
      have hxp := (List.mem_filter.mp hxA).2
      rw [Option.isNone_iff_eq_none, findByAddr_eq_none_iff] at hxp
      rw [hau] at hmemaddr
      exact hxp hmemaddr
    rw [List.map_congr_left hid]
    exact List.map_id' _

/-! ## Sortedness of the stable insertion sort -/

theorem keyLe_trans (a b c : List (List Char)) :
    keyLe a b = true → keyLe b c = true → keyLe a c = true := by
  intro h1 h2
  exact decide_eq_true (le_trans (of_decide_eq_true h1) (of_decide_eq_true h2))

theorem keyLe_total (a b : List (List Char)) :
    keyLe a b = true ∨ keyLe b a = true := by
  rcases le_total a b with h | h
  · exact Or.inl (decide_eq_true h)
  · exact Or.inr (decide_eq_true h)

theorem mem_insertLe {α : Type} {le : α → α → Bool} {a x : α} {l : List α}
    (h : x ∈ insertLe le a l) : x = a ∨ x ∈ l := by
  induction l with
  | nil =>
      rw [show insertLe le a [] = [a] from rfl, List.mem_singleton] at h
      exact Or.inl h
  | cons b bs ih =>
      rw [show insertLe le a (b :: bs) =
        (if le a b then a :: b :: bs else b :: insertLe le a bs) from rfl] at h
      by_cases hle : le a b
      · rw [if_pos hle] at h
        rcases List.mem_cons.mp h with rfl | h2
        · exact Or.inl rfl
        · exact Or.inr h2
      · rw [if_neg hle] at h
        rcases List.mem_cons.mp h with rfl | h2
        · exact Or.inr (List.mem_cons_self x bs)
        · rcases ih h2 with h3 | h3
          · exact Or.inl h3
          · exact Or.inr (List.mem_cons_of_mem b h3)

theorem pairwise_insertLe {α : Type} {le : α → α → Bool}
    (htr : ∀ a b c, le a b = true → le b c = true → le a c = true)
    (hto : ∀ a b, le a b = true ∨ le b a = true)
    (a : α) {l : List α} (h : List.Pairwise (fun x y => le x y = true) l) :
    List.Pairwise (fun x y => le x y = true) (insertLe le a l) := by
  induction l with
  | nil => exact List.pairwise_singleton _ a
  | cons b bs ih =>
      rw [show insertLe le a (b :: bs) =
        (if le a b then a :: b :: bs else b :: insertLe le a bs) from rfl]
      rcases List.pairwise_cons.mp h with ⟨hb, hbs⟩
      by_cases hle : le a b
      · rw [if_pos hle]
        apply List.Pairwise.cons
        · intro y hy
          rcases List.mem_cons.mp hy with rfl | hy2
          · exact hle
          · exact htr a b y hle (hb y hy2)
        · exact h
      · rw [if_neg hle]
        apply List.Pairwise.cons
        · intro y hy
          rcases mem_insertLe hy with rfl | hy2
          · rcases hto b y with h1 | h1
            · exact h1
            · exact absurd h1 hle
          · exact hb y hy2
        · exact ih hbs

theorem pairwise_sortLe {α : Type} {le : α → α → Bool}
    (htr : ∀ a b c, le a b = true → le b c = true → le a c = true)
    (hto : ∀ a b, le a b = true ∨ le b a = true) (l : List α) :
    List.Pairwise (fun x y => le x y = true) (sortLe le l) := by
  induction l with
  | nil => exact List.Pairwise.nil
  | cons a as ih => exact pairwise_insertLe htr hto a ih

theorem itemLe_trans (cfg : Config) (a b c : Item) :
    itemLe cfg a b = true → itemLe cfg b c = true → itemLe cfg a c = true :=
  keyLe_trans _ _ _

theorem itemLe_total (cfg : Config) (a b : Item) :
    itemLe cfg a b = true ∨ itemLe cfg b a = true :=
  keyLe_total _ _

theorem chKeyLe_trans (pinyin : String → List String) (a b c : Channel) :
    chKeyLe pinyin a b = true → chKeyLe pinyin b c = true →
      chKeyLe pinyin a c = true :=
  keyLe_trans _ _ _

theorem chKeyLe_total (pinyin : String → List String) (a b : Channel) :
    chKeyLe pinyin a b = true ∨ chKeyLe pinyin b a = true :=
  keyLe_total _ _

/-! ## The dedup loop of check.py -/

theorem uniqueByAddress_cons (seen : List String) (c : Channel)
    (rest : List Channel) :
    uniqueByAddress seen (c :: rest) =
      if c.address ≠ "" ∧ c.address ∉ seen then
        c :: uniqueByAddress (c.address :: seen) rest
      else uniqueByAddress seen rest := rfl

theorem uniqueByAddress_subset (l : List Channel) :
    ∀ (seen : List String) (ch : Channel), ch ∈ uniqueByAddress seen l → ch ∈ l := by
  induction l with
  | nil => intro seen ch h; cases h
  | cons c rest ih =>
      intro seen ch h
      rw [uniqueByAddress_cons] at h
      by_cases hc : c.address ≠ "" ∧ c.address ∉ seen
      · rw [if_pos hc] at h
        rcases List.mem_cons.mp h with rfl | h2
        · exact List.mem_cons_self ch rest
        · exact List.mem_cons_of_mem c (ih _ ch h2)
      · rw [if_neg hc] at h
        exact List.mem_cons_of_mem c (ih seen ch h)

theorem uniqueByAddress_address_nodup (l : List Channel) :
    ∀ seen : List String,
      ((uniqueByAddress seen l).map Channel.address).Nodup ∧
      ∀ ch ∈ uniqueByAddress seen l, ch.address ∉ seen := by
  induction l with
  | nil =>
      intro seen
      exact ⟨List.nodup_nil, by intro ch h; cases h⟩
  | cons c rest ih =>
      intro seen
      rw [uniqueByAddress_cons]
      by_cases hc : c.address ≠ "" ∧ c.address ∉ seen
      · rw [if_pos hc]
        have ih2 := ih (c.address :: seen)
        constructor
        · rw [List.map_cons]
          apply List.Nodup.cons ?_ ih2.1
          intro hmem
          rw [List.mem_map] at hmem
          obtain ⟨ch2, hch2, haddr⟩ := hmem
          exact (ih2.2 ch2 hch2) (haddr ▸ List.mem_cons_self c.address seen)
        · intro ch hch
          rcases List.mem_cons.mp hch with rfl | h2
          · exact hc.2
          · intro hmem
            exact (ih2.2 ch h2) (List.mem_cons_of_mem c.address hmem)
      · rw [if_neg hc]
        exact ih seen

theorem uniqueByAddress_keeps_address (l : List Channel) :
    ∀ (seen : List String) (a : String), a ∉ seen → a ≠ "" →
      a ∈ l.map Channel.address →
      a ∈ (uniqueByAddress seen l).map Channel.address := by
  induction l with
  | nil => intro seen a _ _ h; cases h
  | cons c rest ih =>
      intro seen a hseen hne hmem
      rw [uniqueByAddress_cons]
      by_cases hac : a = c.address
      · have hc : c.address ≠ "" ∧ c.address ∉ seen := ⟨hac ▸ hne, hac ▸ hseen⟩
        rw [if_pos hc, List.map_cons]
        exact hac ▸ List.mem_cons_self a _
      · have h2 : a ∈ rest.map Channel.address := by
          rw [List.map_cons] at hmem
          rcases List.mem_cons.mp hmem with h3 | h3
          · exact absurd h3 hac
          · exact h3
        by_cases hc : c.address ≠ "" ∧ c.address ∉ seen
        · rw [if_pos hc, List.map_cons]
          apply List.mem_cons_of_mem
          apply ih (c.address :: seen) a ?_ hne h2
          intro hmem2
          rcases List.mem_cons.mp hmem2 with h3 | h3
          · exact hac h3
          · exact hseen h3
        · rw [if_neg hc]
          exact ih seen a hseen hne h2

theorem countP_le_one_of_nodup_map {l : List Channel}
    (h : (l.map Channel.address).Nodup) (a : String) :
    l.countP (fun ch => decide (ch.address = a)) ≤ 1 := by
  induction l with
  | nil => simp
  | cons ch rest ih =>
      rw [List.map_cons, List.nodup_cons] at h
      rw [List.countP_cons]
      by_cases hc : ch.address = a
      · have hz : rest.countP (fun ch2 => decide (ch2.address = a)) = 0 := by
          rw [List.countP_eq_zero]
          intro x hx
          simp only [decide_eq_true_eq]
          intro hxa
          exact h.1 (hc ▸ hxa ▸ List.mem_map_of_mem Channel.address hx)
        rw [hz]
        simp [hc]
      · rw [show (decide (ch.address = a)) = false from by simp [hc], if_neg]
        · simpa using ih h.2
        · simp

theorem countP_pos_of_mem_map {l : List Channel} {a : String}
    (h : a ∈ l.map Channel.address) :
    0 < l.countP (fun ch => decide (ch.address = a)) := by
  rw [List.countP_pos_iff]
  rw [List.mem_map] at h
  obtain ⟨ch, hch, rfl⟩ := h
  exact ⟨ch, hch, by simp⟩

theorem dedup_countP_facts (L : List Channel) (a : String) :
    (uniqueByAddress [] L).countP (fun ch => decide (ch.address = a)) ≤ 1 ∧
    (a ≠ "" → a ∈ L.map Channel.address →
      (uniqueByAddress [] L).countP (fun ch => decide (ch.address = a)) = 1) := by
  constructor
  · exact countP_le_one_of_nodup_map ((uniqueByAddress_address_nodup L []).1) a
  · intro hne hmem
    have hle := countP_le_one_of_nodup_map ((uniqueByAddress_address_nodup L []).1) a
    have hpos := countP_pos_of_mem_map
      (uniqueByAddress_keeps_address L [] a (by simp) hne hmem)
    omega

/-- Applying the merge loops with all three diffs empty is the identity. -/
theorem applyMerge_nil (l : List Item) : applyMerge l [] [] [] = l := by
  show l ++ [] = l
  exact List.append_nil l

/-! # Claim theorems -/

/-- C1: over lists keyed by address (pairwise-distinct keys on both sides),
`update_data`'s reconciliation computes `added` as the new items whose key is
absent from the old list, `removed` as the old items whose key is absent from
the new list, and `updated` as the new items whose key is present in both but
whose value differs structurally; and the merged list starts from `oldList`
(old order, with every removed key deleted and, for every updated key, the new
value's fields applied in place onto the existing item) and appends every
added item. -/
theorem reconcile_diff_merge_spec (oldL newL : List Item)
    (ho : (oldL.map Item.address).Nodup) (hn : (newL.map Item.address).Nodup) :
    (reconcile oldL newL).added =
      (newL.filter (fun it => (findByAddr oldL it.address).isNone)).map
        (fun it => (it.address, it)) ∧
    (reconcile oldL newL).removed =
      (oldL.filter (fun it => (findByAddr newL it.address).isNone)).map
        (fun it => (it.address, it)) ∧
    (reconcile oldL newL).updated =
      (newL.filter (fun it =>
        match findByAddr oldL it.address with
        | some ov => decide (it ≠ ov)
        | none => false)).map (fun it => (it.address, it)) ∧
    (reconcile oldL newL).merged =
      oldL.filterMap (fun oi =>
        match findByAddr newL oi.address with
        | none => none
        | some ni => some (if ni = oi then oi else oi.applyUpdate ni)) ++
      newL.filter (fun it => (findByAddr oldL it.address).isNone) :=
  ⟨addedOf_eq hn, removedOf_eq ho, updatedOf_eq ho hn,
    reconcile_merged_eq oldL newL ho hn⟩

theorem reconcile_diff_merge_spec_witness :
    ((List.map Item.address [itemA, itemB]).Nodup ∧
      (List.map Item.address [itemB2, itemC]).Nodup) ∧
    (reconcile [itemA, itemB] [itemB2, itemC]).merged =
      [itemA, itemB].filterMap (fun oi =>
        match findByAddr [itemB2, itemC] oi.address with
        | none => none
        | some ni => some (if ni = oi then oi else oi.applyUpdate ni)) ++
      [itemB2, itemC].filter
        (fun it => (findByAddr [itemA, itemB] it.address).isNone) :=
  ⟨⟨by decide, by decide⟩,
    (reconcile_diff_merge_spec [itemA, itemB] [itemB2, itemC]
      (by decide) (by decide)).2.2.2⟩

/-- C8: a merged section list has pairwise-distinct addresses whenever the
stored list's were distinct, for EVERY upstream payload — even one containing
duplicate addresses (the payload passes through a key-deduplicating dict
comprehension before the merge).  `reconcile` is the same function at platform
level (platforms of one source) and at channel level (channels of one
platform), so this covers both uniqueness invariants. -/
theorem merge_preserves_address_uniqueness (oldL newL : List Item)
    (h : (oldL.map Item.address).Nodup) :
    ((reconcile oldL newL).merged.map Item.address).Nodup :=
  applyMerge_address_nodup oldL newL h

theorem merge_preserves_address_uniqueness_witness :
    (List.map Item.address [itemA]).Nodup ∧
    ((reconcile [itemA] [itemC, itemC, itemB]).merged.map Item.address).Nodup :=
  ⟨by decide,
    merge_preserves_address_uniqueness [itemA] [itemC, itemC, itemB] (by decide)⟩

/-- The `result` counter cases of `DataUpdater.update_data` (src/main.py):
fetch/parse failure (fetch returned nothing, the payload was malformed, or
preprocessing raised) sets it to 0 and leaves the subtree untouched; a
successful fetch with a nonzero diff sets it to 1; a successful fetch with an
empty diff sets it to (previous result + 1) mod 100 and leaves the item list
unchanged. -/
theorem update_data_result_cases (cfg : Config) (isP : Bool) (node : Node) :
    (∀ f, f = none ∨ f = some Payload.malformed →
        update_data cfg isP node f = { node with result := some 0 }) ∧
    (∀ payload, preprocess cfg isP node.address payload = none →
        update_data cfg isP node (some (Payload.ok payload)) =
          { node with result := some 0 }) ∧
    (∀ payload newList, preprocess cfg isP node.address payload = some newList →
      ((reconcile node.items newList).added ≠ [] ∨
          (reconcile node.items newList).removed ≠ [] ∨
          (reconcile node.items newList).updated ≠ [] →
        update_data cfg isP node (some (Payload.ok payload)) =
          { node with items := (reconcile node.items newList).merged,
                      result := some 1 }) ∧
      ((reconcile node.items newList).added = [] ∧
          (reconcile node.items newList).removed = [] ∧
          (reconcile node.items newList).updated = [] →
        update_data cfg isP node (some (Payload.ok payload)) =
          { node with result := some ((node.result.getD 0 + 1) % 100) })) := by
  refine ⟨?_, ?_, ?_⟩
  · rintro f (rfl | rfl) <;> rfl
  · intro payload hpre
    simp only [update_data]
    rw [hpre]
  · intro payload newList hpre
    constructor
    · intro hne
      simp only [update_data]
      rw [hpre]
      simp only []
      rw [if_pos hne]
    · intro hz
      simp only [update_data]
      rw [hpre]
      simp only []
      rw [if_neg ?_]
      · have hmerged : (reconcile node.items newList).merged = node.items := by
          have hm : (reconcile node.items newList).merged =
              applyMerge node.items (reconcile node.items newList).added
                (reconcile node.items newList).removed
                (reconcile node.items newList).updated := rfl
          rw [hm, hz.1, hz.2.1, hz.2.2, applyMerge_nil]
        rw [hmerged]
      · intro hcontra
        rcases hcontra with hc | hc | hc
        · exact hc hz.1
        · exact hc hz.2.1
        · exact hc hz.2.2

/-- C2 counterexample: a refresh cycle of a Source node through fetch.py's
`update_source`.  The stored node has result 5 and a nonempty subtree; the
upstream is unchanged (the rebuilt subtree equals the stored one — a zero
diff), yet the refreshed node's result is 1, not (5 + 1) mod 100 = 6.  And on
fetch failure the prior subtree is not left untouched: `update_source` yields
a fresh node with an empty platform list, which `main()` writes over
`pt.json`. -/
theorem update_source_resets_result :
    (update_source [] "http://root/" (some [wirePfA]) chFetchA).pingtai =
      priorSrcNode.pingtai ∧
    (update_source [] "http://root/" (some [wirePfA]) chFetchA).result = 1 ∧
    priorSrcNode.result = 5 ∧
    (priorSrcNode.result + 1) % 100 = 6 ∧
    (1 : Int) ≠ 6 ∧
    update_source [] "http://root/" none chFetchA =
      { address := "http://root/", result := 0, pingtai := [] } ∧
    priorSrcNode.pingtai ≠ [] := by
  refine ⟨by decide, rfl, rfl, by decide, by decide, rfl, by decide⟩

/-- C2 amended: the three-case counter governs `DataUpdater.update_data`
(src/main.py) — fetch/parse failure sets `result = 0` with the subtree
untouched, a nonzero diff sets 1, a zero diff sets (previous + 1) mod 100
with the items unchanged.  fetch.py's `update_source` instead rebuilds each
Source from scratch every run: fetch failure yields a fresh node with
result 0 and an empty platform list (the prior subtree is overwritten, not
preserved), and every successful index fetch yields result 1, even when the
content is unchanged from the previous cycle. -/
theorem result_counter_cases (cfg : Config) (isP : Bool) (node : Node)
    (ignore : List String) (srcUrl : String)
    (chFetch : String → Option (List Channel)) :
    (∀ f, f = none ∨ f = some Payload.malformed →
        update_data cfg isP node f = { node with result := some 0 }) ∧
    (∀ payload, preprocess cfg isP node.address payload = none →
        update_data cfg isP node (some (Payload.ok payload)) =
          { node with result := some 0 }) ∧
    (∀ payload newList, preprocess cfg isP node.address payload = some newList →
      ((reconcile node.items newList).added ≠ [] ∨
          (reconcile node.items newList).removed ≠ [] ∨
          (reconcile node.items newList).updated ≠ [] →
        update_data cfg isP node (some (Payload.ok payload)) =
          { node with items := (reconcile node.items newList).merged,
                      result := some 1 }) ∧
      ((reconcile node.items newList).added = [] ∧
          (reconcile node.items newList).removed = [] ∧
          (reconcile node.items newList).updated = [] →
        update_data cfg isP node (some (Payload.ok payload)) =
          { node with result := some ((node.result.getD 0 + 1) % 100) })) ∧
    update_source ignore srcUrl none chFetch =
      { address := srcUrl, result := 0, pingtai := [] } ∧
    ∀ platforms, (update_source ignore srcUrl (some platforms) chFetch).result = 1 := by
  refine ⟨(update_data_result_cases cfg isP node).1,
    (update_data_result_cases cfg isP node).2.1,
    (update_data_result_cases cfg isP node).2.2, rfl, fun platforms => rfl⟩

theorem result_counter_cases_witness :
    (preprocess cfgId false nodeW.address [itemA, itemB] = some [itemA, itemB] ∧
      (reconcile nodeW.items [itemA, itemB]).added = [] ∧
      (reconcile nodeW.items [itemA, itemB]).removed = [] ∧
      (reconcile nodeW.items [itemA, itemB]).updated = []) ∧
    update_data cfgId false nodeW (some (Payload.ok [itemA, itemB])) =
      { nodeW with result := some 6 } ∧
    (update_source [] "http://root/" (some [wirePfA]) chFetchA).result = 1 := by
  refine ⟨⟨by decide, by decide, by decide, by decide⟩, ?_, ?_⟩
  · have h := ((result_counter_cases cfgId false nodeW [] "http://root/"
      chFetchA).2.2.1 [itemA, itemB] [itemA, itemB] (by decide)).2
      ⟨by decide, by decide, by decide⟩
    rw [h]
    decide
  · exact (result_counter_cases cfgId false nodeW [] "http://root/"
      chFetchA).2.2.2.2 [wirePfA]

/-- C3 counterexample: a payload whose `Last-Modified` is older than the
threshold is discarded, but the node is NOT left byte-for-byte unchanged —
its `result` field is overwritten with 0 (here: from 5). -/
theorem stale_payload_modifies_node :
    fetch_webpage 100000 3600 (HttpResp.ok (some 0) (Payload.ok [itemA])) = none ∧
    refresh cfgId false 100000 3600 nodeW
      (HttpResp.ok (some 0) (Payload.ok [itemA])) ≠ nodeW ∧
    (refresh cfgId false 100000 3600 nodeW
      (HttpResp.ok (some 0) (Payload.ok [itemA]))).result = some 0 ∧
    nodeW.result = some 5 := by
  refine ⟨rfl, ?_, rfl, rfl⟩
  decide

/-- C3 amended: a payload whose `Last-Modified` is older than the threshold,
or missing, is discarded without touching the item subtree, but the node's
`result` is set to 0 — the same outcome as a fetch failure, not a
byte-for-byte no-op. -/
theorem stale_payload_sets_result_zero (cfg : Config) (isP : Bool)
    (now threshold : Int) (node : Node) (lm : Option Int) (body : Payload)
    (h : lm = none ∨ ∃ t, lm = some t ∧ threshold ≤ now - t) :
    refresh cfg isP now threshold node (HttpResp.ok lm body) =
      { node with result := some 0 } := by
  unfold refresh
  rcases h with rfl | ⟨t, rfl, ht⟩
  · rfl
  · have hfw : fetch_webpage now threshold (HttpResp.ok (some t) body) =
        (if now - t < threshold then some body else none) := rfl
    rw [hfw, if_neg (not_lt.mpr ht)]
    rfl

theorem stale_payload_sets_result_zero_witness :
    (some (0 : Int) = none ∨
      ∃ t, some (0 : Int) = some t ∧ (3600 : Int) ≤ 100000 - t) ∧
    refresh cfgId false 100000 3600 nodeW
      (HttpResp.ok (some 0) (Payload.ok [itemA])) =
      { nodeW with result := some 0 } :=
  ⟨Or.inr ⟨0, rfl, by decide⟩,
    stale_payload_sets_result_zero cfgId false 100000 3600 nodeW (some 0)
      (Payload.ok [itemA]) (Or.inr ⟨0, rfl, by decide⟩)⟩

/-- C4: a channel whose address ends in `.mp4` is reported live by `check_one`
(so it reaches the live output) with zero network/subprocess operations, in
every network world — and `main.py`'s `get_stream_status` likewise returns the
recording status without any probe. -/
theorem mp4_shortcut_live_no_network (w : World) (ch : Channel)
    (h : strEnds ch.address ".mp4" = true) :
    check_one_trace w ch = (some ch, 0) ∧
    check_one w ch = some ch ∧
    get_stream_status w ch.address = ("录像", none) ∧
    ∀ w2 : World, check_one w2 ch = check_one w ch := by
  refine ⟨?_, ?_, ?_, ?_⟩
  · unfold check_one_trace
    rw [if_pos h]
  · unfold check_one
    rw [if_pos h]
  · unfold get_stream_status
    rw [if_pos h]
  · intro w2
    unfold check_one
    rw [if_pos h, if_pos h]

theorem mp4_shortcut_live_no_network_witness :
    strEnds "http://h/file.mp4" ".mp4" = true ∧
    check_one_trace wLive ⟨"http://h/file.mp4", "t"⟩ =
      (some ⟨"http://h/file.mp4", "t"⟩, 0) :=
  ⟨by decide,
    (mp4_shortcut_live_no_network wLive ⟨"http://h/file.mp4", "t"⟩ (by decide)).1⟩

/-- C6 counterexample: in a world where an HTTP GET for the address would
answer 200 (a status below 400) but the demuxer finds no stream, the spec's
status-based range probe reports live while the code's tier-1 probe for the
HTTP address reports the channel dead — the code probes with the demuxer, it
never issues an HTTP request or inspects a status code. -/
theorem http_probe_not_status_based :
    spec_http_probe wHttpOnly "http://h/live.m3u8" = true ∧
    checkOther wHttpOnly "http://h/live.m3u8" = false ∧
    check_one wHttpOnly ⟨"http://h/live.m3u8", "t"⟩ = none := by
  refine ⟨rfl, rfl, ?_⟩
  decide

/-- C6 amended: for an HTTP(S)-scheme address (not a recording), the tier-1
probe invokes the external demuxer: the channel is reported live exactly when
the demuxer metadata lists at least one stream, and the outcome is entirely
independent of any HTTP status the server would return. -/
theorem non_rtmp_probe_uses_demuxer (w : World) (ch : Channel)
    (h1 : strStarts ch.address "http://" = true ∨
      strStarts ch.address "https://" = true)
    (h2 : strStarts ch.address "rtmp://" = false)
    (h3 : strEnds ch.address ".mp4" = false)
    (h4 : w.ffmpegModule = true) :
    (check_one w ch = some ch ↔
      ∃ n, w.probeStreams ch.address = some n ∧ 0 < n) ∧
    ∀ f, check_one { w with httpStatus := f } ch = check_one w ch := by
  constructor
  · unfold check_one
    rw [if_neg (by rw [h3]; simp), if_neg (by rw [h2]; simp)]
    unfold checkOther
    rw [if_pos h4]
    rcases hp : w.probeStreams ch.address with _ | n
    · simp
    · by_cases hn : 0 < n
      · simp [hn]
      · simp [hn]
  · intro f
    rfl

theorem non_rtmp_probe_uses_demuxer_witness :
    (strStarts "http://h/live.m3u8" "http://" = true ∨
      strStarts "http://h/live.m3u8" "https://" = true) ∧
    (check_one wLive ⟨"http://h/live.m3u8", "t"⟩ =
        some ⟨"http://h/live.m3u8", "t"⟩ ↔
      ∃ n, wLive.probeStreams "http://h/live.m3u8" = some n ∧ 0 < n) :=
  ⟨Or.inl (by decide),
    (non_rtmp_probe_uses_demuxer wLive ⟨"http://h/live.m3u8", "t"⟩
      (Or.inl (by decide)) (by decide) (by decide) rfl).1⟩

/-- C7 counterexample: a channel whose RTMP handshake times out and one whose
handshake is refused produce byte-identical observable outcomes (excluded
from the output, logged offline) — there is no `ProbeTimeout` outcome code
distinct from a protocol rejection, and no per-channel wall-clock ceiling
exists in the code. -/
theorem timeout_and_rejection_same_outcome :
    check_one_report wTimeout ⟨"rtmp://host/app/s", "t"⟩ =
      check_one_report wRefused ⟨"rtmp://host/app/s", "t"⟩ ∧
    check_one_report wTimeout ⟨"rtmp://host/app/s", "t"⟩ = (none, "离线") := by
  constructor <;> decide

/-- C7 amended: each probe tier carries only its own socket/subprocess
timeout; there is no wall-clock ceiling wrapping the tier sequence, and a
tier timeout is reported identically to a protocol-level rejection: the
channel is excluded from the live set with the same offline status and no
distinguishing outcome code. -/
theorem tier_timeout_reported_as_offline (w1 w2 : World) (ch : Channel)
    (h1 : strStarts ch.address "rtmp://" = true)
    (h2 : strEnds ch.address ".mp4" = false)
    (ht : ∀ h p, w1.rtmp h p = RtmpResult.timeout)
    (hr : ∀ h p, w2.rtmp h p = RtmpResult.refused) :
    check_one_report w1 ch = (none, "离线") ∧
    check_one_report w2 ch = check_one_report w1 ch ∧
    check_one w1 ch = none := by
  have hc1 : checkRtmp w1 ch.address = false := by
    unfold checkRtmp
    rcases parse_rtmp_url ch.address with _ | ⟨host, port, app2, st⟩
    · rfl
    · show rtmp_handshake w1 host port = false
      unfold rtmp_handshake
      rw [ht host port]
  have hc2 : checkRtmp w2 ch.address = false := by
    unfold checkRtmp
    rcases parse_rtmp_url ch.address with _ | ⟨host, port, app2, st⟩
    · rfl
    · show rtmp_handshake w2 host port = false
      unfold rtmp_handshake
      rw [hr host port]
  have hrep : ∀ w : World, checkRtmp w ch.address = false →
      check_one_report w ch = (none, "离线") := by
    intro w hw
    unfold check_one_report
    rw [if_neg (by rw [h2]; simp), if_pos h1, hw]
    rfl
  refine ⟨hrep w1 hc1, (hrep w2 hc2).trans (hrep w1 hc1).symm, ?_⟩
  unfold check_one
  rw [if_neg (by rw [h2]; simp), if_pos h1, hc1]
  rfl

theorem tier_timeout_reported_as_offline_witness :
    (strStarts "rtmp://host/app/s" "rtmp://" = true ∧
      strEnds "rtmp://host/app/s" ".mp4" = false) ∧
    check_one_report wTimeout ⟨"rtmp://host/app/s", "t"⟩ = (none, "离线") :=
  ⟨⟨by decide, by decide⟩,
    (tier_timeout_reported_as_offline wTimeout wRefused ⟨"rtmp://host/app/s", "t"⟩
      (by decide) (by decide) (fun _ _ => rfl) (fun _ _ => rfl)).1⟩

/-- C5 counterexample: two channel records under different platforms share one
address and the shared probe succeeds, yet only the first-seen record appears
in the live output — the duplicate record is dropped at dedup time, its
presence is not "reflected" by the probe outcome. -/
theorem dedup_drops_duplicate_record :
    (check_one wLive dupB).isSome = true ∧
    dupA ∈ liveChannels wLive ptDup ∧
    dupB ∉ liveChannels wLive ptDup := by
  refine ⟨?_, ?_, ?_⟩ <;> decide

/-- C5 amended: at most one probe task exists per address — exactly one when
the address occurs (nonempty) under a `result = 1` source — and a deduplicated
record is in the live output iff its single probe succeeded; records dropped
by dedup never reach the output. -/
theorem dedup_single_probe_task (w : World) (pt : List Source) (a : String) :
    (checkpyChannels pt).countP (fun ch => decide (ch.address = a)) ≤ 1 ∧
    (a ≠ "" →
      a ∈ ((pt.filter (fun s => decide (s.result = some 1))).flatMap
        (fun s => s.pingtai.flatMap (fun p => p.zhubo))).map Channel.address →
      (checkpyChannels pt).countP (fun ch => decide (ch.address = a)) = 1) ∧
    ∀ ch, ch ∈ checkpyChannels pt →
      (ch ∈ liveChannels w pt ↔ (check_one w ch).isSome = true) := by
  refine ⟨?_, ?_, ?_⟩
  · exact (dedup_countP_facts
      ((pt.filter (fun s => decide (s.result = some 1))).flatMap
        (fun s => s.pingtai.flatMap (fun p => p.zhubo))) a).1
  · exact (dedup_countP_facts
      ((pt.filter (fun s => decide (s.result = some 1))).flatMap
        (fun s => s.pingtai.flatMap (fun p => p.zhubo))) a).2
  · intro ch hch
    unfold liveChannels
    rw [List.mem_filter]
    constructor
    · intro h
      exact h.2
    · intro h
      exact ⟨hch, h⟩

theorem dedup_single_probe_task_witness :
    ("http://dup/x" ≠ "" ∧
      "http://dup/x" ∈ ((ptDup.filter (fun s => decide (s.result = some 1))).flatMap
        (fun s => s.pingtai.flatMap (fun p => p.zhubo))).map Channel.address) ∧
    (checkpyChannels ptDup).countP
      (fun ch => decide (ch.address = "http://dup/x")) = 1 :=
  ⟨⟨by decide, by decide⟩,
    (dedup_single_probe_task wLive ptDup "http://dup/x").2.1 (by decide) (by decide)⟩

/-- C9 counterexample: a merge whose payload arrives already sorted by the
pinyin key still yields a merged list NOT ordered by that key — the added
item is appended after the preserved old items, the merged list is never
re-sorted (pass-through pinyin, titles "b" then "a"). -/
theorem merged_list_not_sorted :
    (update_data cfgId false ⟨"s", some 1, [itTb]⟩
        (some (Payload.ok [itTa, itTb]))).items = [itTb, itTa] ∧
    ¬ List.Pairwise (fun x y => itemLe cfgId x y = true) [itTb, itTa] := by
  constructor <;> decide

/-- C9 amended: the pinyin-key ordering (numeric tokens excluded) governs the
fetched payload — `update_data` sorts the incoming list by that key before
diffing — and the deduplicated probe list `sorted_unique_channels`; the merged
stored list itself preserves old order and appends additions unsorted. -/
theorem payload_and_probe_lists_sorted (cfg : Config)
    (pinyin : String → List String) (l : List Item) (pt : List Source) :
    List.Pairwise (fun x y => itemLe cfg x y = true) (sortPayload cfg l) ∧
    List.Pairwise (fun a b => chKeyLe pinyin a b = true)
      (sorted_unique_channels pinyin pt) := by
  constructor
  · exact pairwise_sortLe (itemLe_trans cfg) (itemLe_total cfg) l
  · exact pairwise_sortLe (chKeyLe_trans pinyin) (chKeyLe_total pinyin) _

/-- C10: in check.py's probing stage every probed channel comes from a source
whose `result` is exactly 1; the live output only contains probed channels,
and erasing every source with `result ≠ 1` (0, or the 2.. values the
unchanged-heartbeat counter produces) does not change the probe set. -/
theorem probe_set_requires_result_one (w : World) (pt : List Source) :
    (∀ ch, ch ∈ checkpyChannels pt →
      ∃ src, src ∈ pt ∧ src.result = some 1 ∧
        ∃ pf, pf ∈ src.pingtai ∧ ch ∈ pf.zhubo) ∧
    (∀ ch, ch ∈ liveChannels w pt → ch ∈ checkpyChannels pt) ∧
    checkpyChannels pt =
      checkpyChannels (pt.filter (fun s => decide (s.result = some 1))) := by
  refine ⟨?_, ?_, ?_⟩
  · intro ch hch
    have h1 := uniqueByAddress_subset _ [] ch hch
    rw [List.mem_flatMap] at h1
    obtain ⟨src, hsrc, h2⟩ := h1
    rw [List.mem_filter] at hsrc
    rw [List.mem_flatMap] at h2
    obtain ⟨pf, hpf, h3⟩ := h2
    exact ⟨src, hsrc.1, of_decide_eq_true hsrc.2, pf, hpf, h3⟩
  · intro ch hch
    exact (List.mem_filter.mp hch).1
  · unfold checkpyChannels
    have hff : (pt.filter (fun s => decide (s.result = some 1))).filter
        (fun s => decide (s.result = some 1)) =
        pt.filter (fun s => decide (s.result = some 1)) := by
      rw [List.filter_filter]
      apply List.filter_congr
      intro s _
      rw [Bool.and_self]
    rw [hff]

theorem probe_set_requires_result_one_witness :
    dupA ∈ checkpyChannels ptDup ∧
    ∃ src, src ∈ ptDup ∧ src.result = some 1 ∧
      ∃ pf, pf ∈ src.pingtai ∧ dupA ∈ pf.zhubo :=
  ⟨by decide, (probe_set_requires_result_one wLive ptDup).1 dupA (by decide)⟩

end LiveMonitor
